import Mathlib

/-!
Shallow embedding of `jentool` (src/jentool/__init__.py), a CLI tool that
resolves a `(url, user, password)` profile from an INI config file and then
lists / disables / deletes / copies Jenkins jobs whose names match a regular
expression.  The embedding models observable behaviour as a trace of events
(config reads, printed lines, network calls) together with a process exit
code.  Job-name patterns are modelled by a regular-expression AST with
Python's `re.match` semantics (match anchored at the start of the string,
not required to span the whole string); `re.sub` with a fixed pattern and
replacement is modelled as an opaque-to-the-theorems string function, since
the handlers only apply it pointwise to job names.
-/

namespace Jentool

/-- Regular-expression abstract syntax: the compiled form of the user-supplied
pattern string passed to `re.compile`. -/
inductive Regex where
  | emptyset : Regex
  | eps : Regex
  | chr : Char → Regex
  | alt : Regex → Regex → Regex
  | cat : Regex → Regex → Regex
  | star : Regex → Regex
deriving DecidableEq

/-- Whether a regex accepts the empty string. -/
def nullable : Regex → Bool
  | .emptyset => false
  | .eps => true
  | .chr _ => false
  | .alt r s => nullable r || nullable s
  | .cat r s => nullable r && nullable s
  | .star _ => true

/-- Brzozowski derivative of a regex by one character. -/
def deriv : Regex → Char → Regex
  | .emptyset, _ => .emptyset
  | .eps, _ => .emptyset
  | .chr d, c => if d = c then .eps else .emptyset
  | .alt r s, c => .alt (deriv r c) (deriv s c)
  | .cat r s, c =>
      if nullable r then .alt (.cat (deriv r c) s) (deriv s c)
      else .cat (deriv r c) s
  | .star r, c => .cat (deriv r c) (.star r)

/-- Whole-string acceptance of a character list. -/
def fullmatchL : Regex → List Char → Bool
  | r, [] => nullable r
  | r, c :: cs => fullmatchL (deriv r c) cs

/-- Acceptance of some (possibly empty) leading segment of a character list:
the semantics of Python's `re.match` primitive, anchored at the start of the
string but not required to consume all of it. -/
def matchAtStartL : Regex → List Char → Bool
  | r, [] => nullable r
  | r, c :: cs => nullable r || matchAtStartL (deriv r c) cs

/-- The test `re.compile(pattern).match(name)` used by every job handler. -/
def reMatch (r : Regex) (s : String) : Bool := matchAtStartL r s.data

/-- Whole-string (full-match) regex semantics on strings.  This definition
follows the SPEC's words ("full-match semantics"): the source never calls a
full-match primitive, so this is the spec-side notion compared against
`reMatch` when settling the filtering claims. -/
def reFullmatch (r : Regex) (s : String) : Bool := fullmatchL r s.data

/-- Observable events of one invocation: config-file reads, printed lines,
the help text, and the individual remote (network) API calls. -/
inductive Event where
  | readConfig : String → Event
  | printHelp : Event
  | print : String → Event
  | netGetJobs : Event
  | netGetJobInfo : String → Event
  | netJobExists : String → Event
  | netDisableJob : String → Event
  | netDeleteJob : String → Event
  | netCopyJob : String → String → Event
deriving DecidableEq

/-- Whether an event is a remote (network) API call. -/
def Event.isNet : Event → Bool
  | .netGetJobs => true
  | .netGetJobInfo _ => true
  | .netJobExists _ => true
  | .netDisableJob _ => true
  | .netDeleteJob _ => true
  | .netCopyJob _ _ => true
  | .readConfig _ => false
  | .printHelp => false
  | .print _ => false

/-- Parsed content of an INI config file: sections, each a list of
key/value pairs. -/
def ConfigData : Type := List (String × List (String × String))

/-- Filesystem as seen through `os.path.exists` + `configparser.read`:
`none` means the path does not exist. -/
def FS : Type := String → Option ConfigData

/-- Section lookup (`args.config_profile not in config`). -/
def lookupSection : ConfigData → String → Option (List (String × String))
  | [], _ => none
  | (n, sec) :: rest, name => if n = name then some sec else lookupSection rest name

/-- Key lookup inside a section (`'url' not in config[profile]`). -/
def lookupKey : List (String × String) → String → Option String
  | [], _ => none
  | (k, v) :: rest, key => if k = key then some v else lookupKey rest key

/-- Trace semantics of `_get_profile`: the emitted events (the config read
and any error message printed), paired with `some (url, user, password)` on
success and `none` when the function called `sys.exit(1)`. -/
def getProfileRun (fs : FS) (cfile cprofile : String) :
    List Event × Option (String × String × String) :=
  match fs cfile with
  | none =>
      ([Event.print ("jentool configuration file " ++ cfile ++ " does not exist")], none)
  | some config =>
      match lookupSection config cprofile with
      | none =>
          ([Event.readConfig cfile,
            Event.print ("can not find section " ++ cprofile ++ " in " ++ cfile)], none)
      | some sec =>
          match lookupKey sec "url" with
          | none =>
              ([Event.readConfig cfile,
                Event.print ("url not in profile " ++ cprofile)], none)
          | some url =>
              match lookupKey sec "user" with
              | none =>
                  ([Event.readConfig cfile,
                    Event.print ("user not in profile " ++ cprofile)], none)
              | some user =>
                  match lookupKey sec "password" with
                  | none =>
                      ([Event.readConfig cfile,
                        Event.print ("password not in profile " ++ cprofile)], none)
                  | some password =>
                      ([Event.readConfig cfile], some (url, user, password))

/-- Spec-side configuration errors (`ConfigError{FileMissing}`,
`ConfigError{SectionMissing}`, `ConfigError{FieldMissing(field)}`). -/
inductive ConfigError where
  | fileMissing : ConfigError
  | sectionMissing : ConfigError
  | fieldMissing : String → ConfigError
deriving DecidableEq

/-- Spec-side profile resolution, following the spec's words:
`resolve(path, profileName) -> Profile | ConfigError`, failing with
file-missing, then section-missing, then field-missing for each of
url, user, password in turn. -/
def resolveSpec (fs : FS) (cfile cprofile : String) :
    Except ConfigError (String × String × String) :=
  match fs cfile with
  | none => .error .fileMissing
  | some config =>
      match lookupSection config cprofile with
      | none => .error .sectionMissing
      | some sec =>
          match lookupKey sec "url" with
          | none => .error (.fieldMissing "url")
          | some url =>
              match lookupKey sec "user" with
              | none => .error (.fieldMissing "user")
              | some user =>
                  match lookupKey sec "password" with
                  | none => .error (.fieldMissing "password")
                  | some password => .ok (url, user, password)

/-- The message `_get_profile` prints for each configuration error. -/
def errMsg (e : ConfigError) (cfile cprofile : String) : String :=
  match e with
  | .fileMissing => "jentool configuration file " ++ cfile ++ " does not exist"
  | .sectionMissing => "can not find section " ++ cprofile ++ " in " ++ cfile
  | .fieldMissing f => f ++ " not in profile " ++ cprofile

/-- Join of one path component, after `posixpath.join`: an absolute second
component replaces the first, otherwise a separator is inserted unless the
first component is empty or already ends in one. -/
def pathJoin (a b : String) : String :=
  if b.data.head? = some '/' then b
  else if a = "" then a ++ b
  else if a.data.getLast? = some '/' then a ++ b
  else a ++ "/" ++ b

/-- Module-level `CONF_PATH` computation: `os.getenv('SNAP_REAL_HOME')` is
`snap` (`none` when unset), and `os.path.expanduser('~')` is `homeDir`.
A set-but-empty `SNAP_REAL_HOME` is falsy in Python, hence the emptiness
test. -/
def CONF_PATH (snap : Option String) (homeDir : String) : String :=
  if snap.getD "" ≠ "" then
    pathJoin (pathJoin (snap.getD "") ".config") "jentool.ini"
  else
    pathJoin (pathJoin homeDir ".config") "jentool.ini"

/-- Remote server state visible to the handlers: the job list returned by
`get_jobs` (only the `fullname` field is ever read), the `disabled` flag
returned by `get_job_info(name)`, and the `job_exists(name)` predicate. -/
structure Server where
  jobNames : List String
  disabledOf : String → Bool
  existsOn : String → Bool

/-- Subcommand tag selected by `set_defaults(func=...)`. -/
inductive Cmd where
  | jobsListCmd : Cmd
  | jobsDisableCmd : Cmd
  | jobsDeleteCmd : Cmd
  | jobsCopyCmd : Cmd
deriving DecidableEq

/-- Parsed command-line arguments.  `job_name` is the compiled regex of the
`job-name` positional; `jobSubst` models
`re.sub(args.job_name_pattern, args.job_name_repl, ·)` as the string
function it denotes; `func` is `none` when no subcommand was given. -/
structure Args where
  config_file : String
  config_profile : String
  job_name : Regex
  disabled_only : Bool
  jobSubst : String → String
  func : Option Cmd

/-- Pad a string with spaces on the right to the given width:
the `:60` format spec in `jobs_copy`. -/
def padRight (s : String) (w : Nat) : String :=
  s ++ String.mk (List.replicate (w - s.length) ' ')

/-- Loop body of `jobs_list`: print each fetched job name that `re.match`es
the pattern. -/
def jobs_list_loop (r : Regex) : List String → List Event
  | [] => []
  | n :: ns =>
      (if reMatch r n then [Event.print n] else []) ++ jobs_list_loop r ns

/-- Loop body of `jobs_disable`: print a status line and call `disable_job`
for each matching job. -/
def jobs_disable_loop (r : Regex) : List String → List Event
  | [] => []
  | n :: ns =>
      (if reMatch r n then
        [Event.print ("Disable job " ++ n), Event.netDisableJob n]
      else []) ++ jobs_disable_loop r ns

/-- Loop body of `jobs_delete`: for each matching job, with `--disabled-only`
first fetch `get_job_info` and skip the job when its `disabled` field is
`False`; otherwise call `delete_job` and then print the status line. -/
def jobs_delete_loop (r : Regex) (dOnly : Bool) (disabledOf : String → Bool) :
    List String → List Event
  | [] => []
  | n :: ns =>
      (if reMatch r n then
        if dOnly then
          Event.netGetJobInfo n ::
            (if disabledOf n then
              [Event.netDeleteJob n, Event.print ("Deleted job " ++ n)]
            else [])
        else [Event.netDeleteJob n, Event.print ("Deleted job " ++ n)]
      else []) ++ jobs_delete_loop r dOnly disabledOf ns

/-- Skip message printed by `jobs_copy` when the target job already exists. -/
def skipMsg (nn : String) : String :=
  "Job " ++ nn ++ " already exists. skipping copy ..."

/-- Status line printed by `jobs_copy` before issuing a copy. -/
def copyMsg (n nn : String) : String :=
  "Copy job " ++ padRight n 60 ++ " -> " ++ nn

/-- Loop body of `jobs_copy`: for each matching job compute the substituted
name; when it differs from the original, ask the server whether the target
exists (a successful copy makes the target exist for later iterations) and
either print the skip message or print the status line and call
`copy_job`. -/
def jobs_copy_loop (r : Regex) (subst : String → String) (ex : String → Bool) :
    List String → List Event
  | [] => []
  | n :: ns =>
      if reMatch r n then
        if n ≠ subst n then
          Event.netJobExists (subst n) ::
            (if ex (subst n) then
              Event.print (skipMsg (subst n)) :: jobs_copy_loop r subst ex ns
            else
              Event.print (copyMsg n (subst n)) :: Event.netCopyJob n (subst n) ::
                jobs_copy_loop r subst (fun m => if m = subst n then true else ex m) ns)
        else jobs_copy_loop r subst ex ns
      else jobs_copy_loop r subst ex ns

/-- Handler `jobs_list`: resolve the profile (exiting 1 on failure), fetch
the jobs and run the loop. -/
def jobs_list (fs : FS) (a : Args) (srv : Server) : List Event × Nat :=
  let p := getProfileRun fs a.config_file a.config_profile
  match p.2 with
  | none => (p.1, 1)
  | some _ => (p.1 ++ Event.netGetJobs :: jobs_list_loop a.job_name srv.jobNames, 0)

/-- Handler `jobs_disable`. -/
def jobs_disable (fs : FS) (a : Args) (srv : Server) : List Event × Nat :=
  let p := getProfileRun fs a.config_file a.config_profile
  match p.2 with
  | none => (p.1, 1)
  | some _ => (p.1 ++ Event.netGetJobs :: jobs_disable_loop a.job_name srv.jobNames, 0)

/-- Handler `jobs_delete`. -/
def jobs_delete (fs : FS) (a : Args) (srv : Server) : List Event × Nat :=
  let p := getProfileRun fs a.config_file a.config_profile
  match p.2 with
  | none => (p.1, 1)
  | some _ =>
      (p.1 ++ Event.netGetJobs ::
        jobs_delete_loop a.job_name a.disabled_only srv.disabledOf srv.jobNames, 0)

/-- Handler `jobs_copy`. -/
def jobs_copy (fs : FS) (a : Args) (srv : Server) : List Event × Nat :=
  let p := getProfileRun fs a.config_file a.config_profile
  match p.2 with
  | none => (p.1, 1)
  | some _ =>
      (p.1 ++ Event.netGetJobs ::
        jobs_copy_loop a.job_name a.jobSubst srv.existsOn srv.jobNames, 0)

/-- Dispatch through the `func` default set by the argument parser. -/
def runFunc (fs : FS) (srv : Server) (a : Args) : Cmd → List Event × Nat
  | .jobsListCmd => jobs_list fs a srv
  | .jobsDisableCmd => jobs_disable fs a srv
  | .jobsDeleteCmd => jobs_delete fs a srv
  | .jobsCopyCmd => jobs_copy fs a srv

/-- The `main` entry point as written in the source: parse the arguments,
UNCONDITIONALLY resolve the profile (so a configuration failure exits 1
here, before the subcommand check), then if no subcommand was given print
the help text and exit 0, otherwise run the handler and exit 0. -/
def mainRun (fs : FS) (srv : Server) (a : Args) : List Event × Nat :=
  let p := getProfileRun fs a.config_file a.config_profile
  match p.2 with
  | none => (p.1, 1)
  | some _ =>
      match a.func with
      | none => (p.1 ++ [Event.printHelp], 0)
      | some c =>
          let h := runFunc fs srv a c
          (p.1 ++ h.1, h.2)

/-- Events `_get_profile` emits on a given configuration error: the error
message, preceded by the config read except when the file is missing. -/
def profileEvents (e : ConfigError) (cfile cprofile : String) : List Event :=
  match e with
  | .fileMissing => [Event.print (errMsg .fileMissing cfile cprofile)]
  | .sectionMissing => [Event.readConfig cfile, Event.print (errMsg .sectionMissing cfile cprofile)]
  | .fieldMissing f => [Event.readConfig cfile, Event.print (errMsg (.fieldMissing f) cfile cprofile)]

/-- Concrete parsed config with a complete default profile, for closed
evaluations. -/
def demoConfig : ConfigData :=
  [("default", [("url", "http"), ("user", "u"), ("password", "pw")])]

/-- Concrete filesystem holding `demoConfig` at path `cfg`. -/
def demoFS : FS := fun p => if p = "cfg" then some demoConfig else none

/-- Concrete server with one job named `a`, for closed evaluations. -/
def demoServer : Server := ⟨["a"], fun _ => true, fun _ => false⟩

/-- Arguments of a no-subcommand invocation against the `cfg` config. -/
def helpArgs : Args :=
  { config_file := "cfg", config_profile := "default", job_name := Regex.chr 'a',
    disabled_only := false, jobSubst := fun s => s, func := none }

/-- Arguments of a `jobs-disable` invocation against a missing config. -/
def badArgs : Args :=
  { config_file := "missing", config_profile := "default", job_name := Regex.chr 'a',
    disabled_only := false, jobSubst := fun s => s, func := some Cmd.jobsDisableCmd }

/-- Pattern matching the one-letter names `a` and `b`. -/
def copyRegex : Regex := Regex.alt (Regex.chr 'a') (Regex.chr 'b')

/-- Substitution appending an exclamation mark, for closed evaluations. -/
def bangSubst : String → String := fun s => s ++ "!"

/-- Server-existence predicate holding exactly the name `b!`. -/
def bangEx : String → Bool := fun m => m == "b!"

/-- Fetched job list with the two names `a` and `b`. -/
def copyNames : List String := ["a", "b"]

/-- Left cancellation for string append: two prints with the same literal
head and different job names are different events. -/
theorem append_left_cancel {a b c : String} (h : a ++ b = a ++ c) : b = c := by
  have hd := congrArg String.data h
  simp only [String.data_append] at hd
  exact String.ext (List.append_cancel_left hd)

/-- Characterization of `_get_profile` in terms of the spec-side resolver:
on error it emits exactly the error message events and no value, on success
it emits the config read and returns the triple. -/
theorem getProfileRun_eq (fs : FS) (cfile cprofile : String) :
    getProfileRun fs cfile cprofile =
      (match resolveSpec fs cfile cprofile with
       | .error e => (profileEvents e cfile cprofile, none)
       | .ok t => ([Event.readConfig cfile], some t)) := by
  unfold getProfileRun resolveSpec
  repeat' split
  all_goals simp_all [profileEvents, errMsg]
  all_goals (rename_i e heq; subst heq; rfl)

/-- The success value of `_get_profile` agrees with the spec-side resolver. -/
theorem getProfileRun_snd (fs : FS) (cfile cprofile : String) :
    (getProfileRun fs cfile cprofile).2 = (resolveSpec fs cfile cprofile).toOption := by
  rw [getProfileRun_eq]
  cases hr : resolveSpec fs cfile cprofile <;> simp [Except.toOption]

/-- On a spec-side error, `_get_profile` prints exactly that error's
message. -/
theorem getProfileRun_error_print (fs : FS) (cfile cprofile : String) (e : ConfigError)
    (h : resolveSpec fs cfile cprofile = .error e) :
    Event.print (errMsg e cfile cprofile) ∈ (getProfileRun fs cfile cprofile).1 := by
  rw [getProfileRun_eq, h]
  cases e <;> simp [profileEvents]

/-- Every event `_get_profile` emits is a config read or a printed line,
never a network call. -/
theorem getProfileRun_not_net (fs : FS) (cfile cprofile : String) :
    ∀ ev ∈ (getProfileRun fs cfile cprofile).1, ev.isNet = false := by
  rw [getProfileRun_eq]
  cases hr : resolveSpec fs cfile cprofile with
  | error e => cases e <;> simp [profileEvents, Event.isNet]
  | ok t => simp [Event.isNet]

/-- `_get_profile` never prints the help text. -/
theorem getProfileRun_no_printHelp (fs : FS) (cfile cprofile : String) :
    Event.printHelp ∉ (getProfileRun fs cfile cprofile).1 := by
  rw [getProfileRun_eq]
  cases hr : resolveSpec fs cfile cprofile with
  | error e => cases e <;> simp [profileEvents]
  | ok t => simp

/-- Every handler exits 1 exactly when its own profile resolution fails,
and 0 otherwise. -/
theorem runFunc_snd (fs : FS) (srv : Server) (a : Args) (c : Cmd) :
    (runFunc fs srv a c).2 =
      (match (getProfileRun fs a.config_file a.config_profile).2 with
       | none => 1
       | some _ => 0) := by
  cases c <;>
    cases hp : (getProfileRun fs a.config_file a.config_profile).2 <;>
    simp [runFunc, jobs_list, jobs_disable, jobs_delete, jobs_copy, hp]

/-- Every event of the `jobs_list` loop is the printed name of a fetched
job that matched the pattern. -/
theorem mem_jobs_list_loop {r : Regex} {names : List String} {e : Event}
    (h : e ∈ jobs_list_loop r names) :
    ∃ m, m ∈ names ∧ reMatch r m = true ∧ e = Event.print m := by
  induction names with
  | nil => simp [jobs_list_loop] at h
  | cons n ns ih =>
      simp only [jobs_list_loop, List.mem_append] at h
      rcases h with h | h
      · by_cases hm : reMatch r n = true
        · simp only [hm, if_true, List.mem_singleton] at h
          exact ⟨n, List.mem_cons_self n ns, hm, h⟩
        · simp [hm] at h
      · obtain ⟨m, hmem, hr, he⟩ := ih h
        exact ⟨m, List.mem_cons_of_mem n hmem, hr, he⟩

/-- Every event of the `jobs_disable` loop is the status line or the
`disable_job` call of a fetched job that matched the pattern. -/
theorem mem_jobs_disable_loop {r : Regex} {names : List String} {e : Event}
    (h : e ∈ jobs_disable_loop r names) :
    ∃ m, m ∈ names ∧ reMatch r m = true ∧
      (e = Event.print ("Disable job " ++ m) ∨ e = Event.netDisableJob m) := by
  induction names with
  | nil => simp [jobs_disable_loop] at h
  | cons n ns ih =>
      simp only [jobs_disable_loop, List.mem_append] at h
      rcases h with h | h
      · by_cases hm : reMatch r n = true
        · simp only [hm, if_true, List.mem_cons, List.mem_singleton,
            List.not_mem_nil, or_false] at h
          exact ⟨n, List.mem_cons_self n ns, hm, h⟩
        · simp [hm] at h
      · obtain ⟨m, hmem, hr, he⟩ := ih h
        exact ⟨m, List.mem_cons_of_mem n hmem, hr, he⟩

/-- Every event of the `jobs_delete` loop concerns a fetched job that
matched the pattern: an info fetch, or a delete plus its status line —
the latter only when `--disabled-only` is off or the job is disabled. -/
theorem mem_jobs_delete_loop {r : Regex} {dOnly : Bool} {dOf : String → Bool}
    {names : List String} {e : Event}
    (h : e ∈ jobs_delete_loop r dOnly dOf names) :
    ∃ m, m ∈ names ∧ reMatch r m = true ∧
      ((e = Event.netGetJobInfo m ∧ dOnly = true) ∨
        ((e = Event.netDeleteJob m ∨ e = Event.print ("Deleted job " ++ m)) ∧
          (dOnly = false ∨ dOf m = true))) := by
  induction names with
  | nil => simp [jobs_delete_loop] at h
  | cons n ns ih =>
      simp only [jobs_delete_loop, List.mem_append] at h
      rcases h with h | h
      · by_cases hm : reMatch r n = true
        · simp only [hm, if_true] at h
          cases dOnly with
          | false =>
              simp at h
              exact ⟨n, List.mem_cons_self n ns, hm, Or.inr ⟨h, Or.inl rfl⟩⟩
          | true =>
              by_cases hd : dOf n = true
              · simp [hd] at h
                rcases h with h | h
                · exact ⟨n, List.mem_cons_self n ns, hm, Or.inl ⟨h, rfl⟩⟩
                · exact ⟨n, List.mem_cons_self n ns, hm, Or.inr ⟨h, Or.inr hd⟩⟩
              · simp [hd] at h
                exact ⟨n, List.mem_cons_self n ns, hm, Or.inl ⟨h, rfl⟩⟩
        · simp [hm] at h
      · obtain ⟨m, hmem, hr, he⟩ := ih h
        exact ⟨m, List.mem_cons_of_mem n hmem, hr, he⟩

/-- Without `--disabled-only`, every fetched job that matches the pattern
is deleted. -/
theorem jobs_delete_loop_deletes {r : Regex} {dOf : String → Bool}
    {names : List String} {m : String} (hm : m ∈ names) (hr : reMatch r m = true) :
    Event.netDeleteJob m ∈ jobs_delete_loop r false dOf names := by
  induction names with
  | nil => simp at hm
  | cons n ns ih =>
      simp only [jobs_delete_loop, List.mem_append]
      rcases List.mem_cons.mp hm with rfl | hm'
      · left
        simp [hr]
      · right
        exact ih hm'

/-- Every event of the `jobs_copy` loop concerns a fetched job that matched
the pattern and whose substituted name differs: the existence probe, the
skip message, the copy status line, or the copy call itself. -/
theorem mem_jobs_copy_loop {r : Regex} {subst : String → String}
    {names : List String} {e : Event} :
    ∀ ex : String → Bool, e ∈ jobs_copy_loop r subst ex names →
      ∃ m, m ∈ names ∧ reMatch r m = true ∧ m ≠ subst m ∧
        (e = Event.netJobExists (subst m) ∨ e = Event.print (skipMsg (subst m)) ∨
         e = Event.print (copyMsg m (subst m)) ∨ e = Event.netCopyJob m (subst m)) := by
  induction names with
  | nil => intro ex h; simp [jobs_copy_loop] at h
  | cons n ns ih =>
      intro ex h
      simp only [jobs_copy_loop] at h
      split at h
      · split at h
        · split at h
          · rename_i hm hne hex
            simp only [List.mem_cons] at h
            rcases h with h | h | h
            · exact ⟨n, List.mem_cons_self n ns, hm, hne, Or.inl h⟩
            · exact ⟨n, List.mem_cons_self n ns, hm, hne, Or.inr (Or.inl h)⟩
            · obtain ⟨m, hmem, hr, hne', he⟩ := ih ex h
              exact ⟨m, List.mem_cons_of_mem n hmem, hr, hne', he⟩
          · rename_i hm hne hex
            simp only [List.mem_cons] at h
            rcases h with h | h | h | h
            · exact ⟨n, List.mem_cons_self n ns, hm, hne, Or.inl h⟩
            · exact ⟨n, List.mem_cons_self n ns, hm, hne, Or.inr (Or.inr (Or.inl h))⟩
            · exact ⟨n, List.mem_cons_self n ns, hm, hne, Or.inr (Or.inr (Or.inr h))⟩
            · obtain ⟨m, hmem, hr, hne', he⟩ := ih _ h
              exact ⟨m, List.mem_cons_of_mem n hmem, hr, hne', he⟩
        · obtain ⟨m, hmem, hr, hne', he⟩ := ih ex h
          exact ⟨m, List.mem_cons_of_mem n hmem, hr, hne', he⟩
      · obtain ⟨m, hmem, hr, hne', he⟩ := ih ex h
        exact ⟨m, List.mem_cons_of_mem n hmem, hr, hne', he⟩

/-- A `copy_job` call in the `jobs_copy` loop always goes from a matched
job to its substituted name, only when the substitution changed the name,
and only when the target did not exist on the server when the loop
started. -/
theorem netCopyJob_mem_jobs_copy_loop {r : Regex} {subst : String → String}
    {names : List String} {src dst : String} :
    ∀ ex : String → Bool, Event.netCopyJob src dst ∈ jobs_copy_loop r subst ex names →
      reMatch r src = true ∧ dst = subst src ∧ src ≠ subst src ∧ ex dst = false := by
  induction names with
  | nil => intro ex h; simp [jobs_copy_loop] at h
  | cons n ns ih =>
      intro ex h
      simp only [jobs_copy_loop] at h
      split at h
      · split at h
        · split at h
          · rename_i hm hne hex
            simp only [List.mem_cons] at h
            rcases h with h | h | h
            · exact absurd h (by simp)
            · exact absurd h (by simp)
            · exact ih ex h
          · rename_i hm hne hex
            simp only [List.mem_cons] at h
            rcases h with h | h | h | h
            · exact absurd h (by simp)
            · exact absurd h (by simp)
            · simp only [Event.netCopyJob.injEq] at h
              obtain ⟨rfl, rfl⟩ := h
              exact ⟨hm, rfl, hne, Bool.not_eq_true _ ▸ hex⟩
            · obtain ⟨hr, hdst, hne', hex'⟩ := ih _ h
              refine ⟨hr, hdst, hne', ?_⟩
              by_cases hd : dst = subst n
              · simp [hd] at hex'
              · simpa [hd] using hex'
        · exact ih ex h
      · exact ih ex h

/-- A matched job whose changed target name already exists on the server
when the loop starts gets the skip message printed. -/
theorem skip_print_mem_jobs_copy_loop {r : Regex} {subst : String → String}
    {names : List String} {m : String}
    (hmem : m ∈ names) (hr : reMatch r m = true) (hne : m ≠ subst m) :
    ∀ ex : String → Bool, ex (subst m) = true →
      Event.print (skipMsg (subst m)) ∈ jobs_copy_loop r subst ex names := by
  induction names with
  | nil => simp at hmem
  | cons n ns ih =>
      intro ex hex
      rcases List.mem_cons.mp hmem with rfl | hmem'
      · simp only [jobs_copy_loop, if_pos hr, if_pos hne, hex, if_true]
        simp
      · simp only [jobs_copy_loop]
        split
        · split
          · split
            · simp only [List.mem_cons]
              right; right
              exact ih hmem' ex hex
            · simp only [List.mem_cons]
              right; right; right
              rename_i hm2 hne2 hex2
              refine ih hmem' _ ?_
              by_cases hd : subst m = subst n
              · simp [hd]
              · simp [hd, hex]
          · exact ih hmem' ex hex
        · exact ih hmem' ex hex

/-- Appending the fixed component `.config` never yields the empty path. -/
theorem config_append_ne_empty (x : String) : x ++ "/" ++ ".config" ≠ "" := by
  intro hc
  have hd := congrArg String.data hc
  rw [String.data_append, String.data_append] at hd
  exact absurd (List.append_eq_nil.mp hd).2 (by decide)

/-- A path ending in the fixed component `.config` ends in the letter `g`,
never in a separator. -/
theorem config_append_getLast (x : String) :
    (x ++ "/" ++ ".config").data.getLast? = some 'g' := by
  have h1 : (x ++ "/" ++ ".config").data = x.data ++ ("/".data ++ ".config".data) := by
    rw [String.data_append, String.data_append, List.append_assoc]
  rw [h1, List.getLast?_append_of_ne_nil x.data (by decide)]
  decide

/-- Unfolding the three-component join for a home directory that is
nonempty and does not end in a separator. -/
theorem pathJoin_config_ini (x : String) (hx : x ≠ "")
    (hsl : x.data.getLast? ≠ some '/') :
    pathJoin (pathJoin x ".config") "jentool.ini" = x ++ "/.config/jentool.ini" := by
  have h1 : pathJoin x ".config" = x ++ "/" ++ ".config" := by
    unfold pathJoin
    rw [if_neg (by decide), if_neg hx, if_neg hsl]
  rw [h1]
  unfold pathJoin
  rw [if_neg (by decide), if_neg (config_append_ne_empty x),
    if_neg (show ¬((x ++ "/" ++ ".config").data.getLast? = some '/') by
      rw [config_append_getLast]
      decide)]
  refine String.ext ?_
  simp only [String.data_append, List.append_assoc]
  exact congrArg _ (by decide)

/-- C1: the spec requires a no-subcommand invocation to print the help and
exit 0 without reading the config file, profile resolution happening only
after subcommand validation.  The code's `main` resolves the profile
before the subcommand check: with a missing config file it prints the
config error and exits 1 without any help text, and with a valid config
file it reads the config file before printing the help. -/
theorem main_resolves_profile_before_subcommand_check :
    (mainRun (fun _ => none) demoServer helpArgs =
      ([Event.print "jentool configuration file cfg does not exist"], 1)) ∧
    Event.printHelp ∉ (mainRun (fun _ => none) demoServer helpArgs).1 ∧
    (Event.readConfig "cfg" ∈ (mainRun demoFS demoServer helpArgs).1 ∧
      (mainRun demoFS demoServer helpArgs).2 = 0 ∧
      Event.printHelp ∈ (mainRun demoFS demoServer helpArgs).1) := by
  decide

/-- C2 (counterexample): the claim that a job is acted upon only if its
name fully matches the pattern is false: with pattern `a`, the job named
`ab` is printed by jobs-list and disabled by jobs-disable although `ab`
does not fully match the pattern. -/
theorem job_acted_upon_without_full_match :
    Event.print "ab" ∈ jobs_list_loop (Regex.chr 'a') ["ab"] ∧
    Event.netDisableJob "ab" ∈ jobs_disable_loop (Regex.chr 'a') ["ab"] ∧
    reFullmatch (Regex.chr 'a') "ab" = false := by
  decide

/-- C2 (amended): a job is acted upon (printed, disabled, deleted or
copied) only if the pattern matches at the start of its full name — the
`re.match` semantics; matching the entire name is not required. -/
theorem acted_upon_only_if_match_at_start
    (r : Regex) (names : List String) (dOnly : Bool) (dOf : String → Bool)
    (subst : String → String) (ex : String → Bool) (n : String) :
    (Event.print n ∈ jobs_list_loop r names → reMatch r n = true) ∧
    (Event.netDisableJob n ∈ jobs_disable_loop r names → reMatch r n = true) ∧
    (Event.netDeleteJob n ∈ jobs_delete_loop r dOnly dOf names → reMatch r n = true) ∧
    (∀ d, Event.netCopyJob n d ∈ jobs_copy_loop r subst ex names → reMatch r n = true) := by
  refine ⟨fun h => ?_, fun h => ?_, fun h => ?_, fun d h => ?_⟩
  · obtain ⟨m, _, hr, he⟩ := mem_jobs_list_loop h
    injection he with hnm
    cases hnm
    exact hr
  · obtain ⟨m, _, hr, he⟩ := mem_jobs_disable_loop h
    rcases he with he | he
    · exact absurd he (by simp)
    · injection he with hnm
      cases hnm
      exact hr
  · obtain ⟨m, _, hr, he⟩ := mem_jobs_delete_loop h
    rcases he with ⟨he, _⟩ | ⟨he, _⟩
    · exact absurd he (by simp)
    · rcases he with he | he
      · injection he with hnm
        cases hnm
        exact hr
      · exact absurd he (by simp)
  · exact (netCopyJob_mem_jobs_copy_loop ex h).1

/-- Witness for the amended C2 at a concrete input. -/
theorem acted_upon_only_if_match_at_start_witness :
    (Event.print "a" ∈ jobs_list_loop (Regex.chr 'a') ["a"] ∧
     Event.netDisableJob "a" ∈ jobs_disable_loop (Regex.chr 'a') ["a"] ∧
     Event.netDeleteJob "a" ∈ jobs_delete_loop (Regex.chr 'a') false (fun _ => true) ["a"] ∧
     Event.netCopyJob "a" "a!" ∈ jobs_copy_loop (Regex.chr 'a') bangSubst (fun _ => false) ["a"]) ∧
    reMatch (Regex.chr 'a') "a" = true := by
  refine ⟨⟨by decide, by decide, by decide, by decide⟩, ?_⟩
  exact (acted_upon_only_if_match_at_start (Regex.chr 'a') ["a"] false (fun _ => true)
    bangSubst (fun _ => false) "a").1 (by decide)

/-- C3: profile resolution fails exactly as the spec-side resolver does —
file missing, then section missing, then a missing url/user/password
field — printing that error's message and exiting 1 through `main`; on
success it returns the url/user/password triple of the section. -/
theorem profile_resolution_error_contract (fs : FS) (cfile cprofile : String) :
    (match resolveSpec fs cfile cprofile with
     | .error e =>
         (getProfileRun fs cfile cprofile).2 = none ∧
         Event.print (errMsg e cfile cprofile) ∈ (getProfileRun fs cfile cprofile).1 ∧
         ∀ (srv : Server) (r : Regex) (d : Bool) (sub : String → String) (fn : Option Cmd),
           (mainRun fs srv
             { config_file := cfile, config_profile := cprofile, job_name := r,
               disabled_only := d, jobSubst := sub, func := fn }).2 = 1
     | .ok t => (getProfileRun fs cfile cprofile).2 = some t) := by
  cases hr : resolveSpec fs cfile cprofile with
  | error e =>
      have h2 : (getProfileRun fs cfile cprofile).2 = none := by
        rw [getProfileRun_snd, hr]
        rfl
      refine ⟨h2, getProfileRun_error_print fs cfile cprofile e hr, ?_⟩
      intro srv r d sub fn
      simp [mainRun, h2]
  | ok t =>
      rw [getProfileRun_snd, hr]
      rfl

/-- C4: when configuration resolution fails, the process exits 1 and the
whole run performs no network call, so remote state is untouched. -/
theorem config_error_no_network (fs : FS) (srv : Server) (a : Args) (e : ConfigError)
    (h : resolveSpec fs a.config_file a.config_profile = .error e) :
    (mainRun fs srv a).2 = 1 ∧ ∀ ev ∈ (mainRun fs srv a).1, ev.isNet = false := by
  have h2 : (getProfileRun fs a.config_file a.config_profile).2 = none := by
    rw [getProfileRun_snd, h]
    rfl
  have hmain : mainRun fs srv a =
      ((getProfileRun fs a.config_file a.config_profile).1, 1) := by
    simp [mainRun, h2]
  rw [hmain]
  exact ⟨rfl, getProfileRun_not_net fs a.config_file a.config_profile⟩

/-- Witness for C4 at a concrete input. -/
theorem config_error_no_network_witness :
    resolveSpec (fun _ => none) badArgs.config_file badArgs.config_profile =
        .error ConfigError.fileMissing ∧
      ((mainRun (fun _ => none) demoServer badArgs).2 = 1 ∧
        ∀ ev ∈ (mainRun (fun _ => none) demoServer badArgs).1, ev.isNet = false) := by
  refine ⟨rfl, ?_⟩
  exact config_error_no_network (fun _ => none) demoServer badArgs ConfigError.fileMissing rfl

/-- C5: if applying the substitution to a job's name returns the name
unchanged, no copy is ever issued from that name. -/
theorem no_copy_when_substitution_is_identity
    (r : Regex) (subst : String → String) (ex : String → Bool)
    (names : List String) (n : String) (h : subst n = n) :
    ∀ d, Event.netCopyJob n d ∉ jobs_copy_loop r subst ex names := by
  intro d hc
  exact (netCopyJob_mem_jobs_copy_loop ex hc).2.2.1 h.symm

/-- Witness for C5 at a concrete input. -/
theorem no_copy_when_substitution_is_identity_witness :
    (fun s : String => s) "a" = "a" ∧
      ∀ d, Event.netCopyJob "a" d ∉
        jobs_copy_loop (Regex.chr 'a') (fun s => s) (fun _ => false) ["a"] :=
  ⟨rfl, no_copy_when_substitution_is_identity (Regex.chr 'a') (fun s => s)
      (fun _ => false) ["a"] "a" rfl⟩

/-- C6: the exit code is 0 on success — in particular whenever the help
text was printed — and 1 exactly when configuration resolution fails. -/
theorem exit_code_contract (fs : FS) (srv : Server) (a : Args) :
    ((mainRun fs srv a).2 =
      (match resolveSpec fs a.config_file a.config_profile with
       | .ok _ => 0
       | .error _ => 1)) ∧
    (Event.printHelp ∈ (mainRun fs srv a).1 → (mainRun fs srv a).2 = 0) := by
  cases hr : resolveSpec fs a.config_file a.config_profile with
  | error e =>
      have h2 : (getProfileRun fs a.config_file a.config_profile).2 = none := by
        rw [getProfileRun_snd, hr]
        rfl
      have hmain : mainRun fs srv a =
          ((getProfileRun fs a.config_file a.config_profile).1, 1) := by
        simp [mainRun, h2]
      rw [hmain]
      exact ⟨rfl, fun hc =>
        absurd hc (getProfileRun_no_printHelp fs a.config_file a.config_profile)⟩
  | ok t =>
      have h2 : (getProfileRun fs a.config_file a.config_profile).2 = some t := by
        rw [getProfileRun_snd, hr]
        rfl
      cases hf : a.func with
      | none =>
          have hmain : mainRun fs srv a =
              ((getProfileRun fs a.config_file a.config_profile).1 ++ [Event.printHelp], 0) := by
            simp [mainRun, h2, hf]
          rw [hmain]
          exact ⟨rfl, fun _ => rfl⟩
      | some c =>
          have hrc : (runFunc fs srv a c).2 = 0 := by
            rw [runFunc_snd, h2]
          have hmain2 : (mainRun fs srv a).2 = (runFunc fs srv a c).2 := by
            simp [mainRun, h2, hf]
          exact ⟨by rw [hmain2, hrc], fun _ => by rw [hmain2, hrc]⟩

/-- Witness for C6 at a concrete input where the help is printed. -/
theorem exit_code_contract_witness :
    Event.printHelp ∈ (mainRun demoFS demoServer helpArgs).1 ∧
      (mainRun demoFS demoServer helpArgs).2 = 0 := by
  refine ⟨by decide, ?_⟩
  exact (exit_code_contract demoFS demoServer helpArgs).2 (by decide)

/-- C7: the default config path is `SNAP_REAL_HOME/.config/jentool.ini`
when `SNAP_REAL_HOME` is set and non-empty, and the home directory's
`.config/jentool.ini` otherwise; a set-but-empty variable behaves like an
unset one. -/
theorem conf_path_from_environment (h home : String) :
    (h ≠ "" → h.data.getLast? ≠ some '/' →
      CONF_PATH (some h) home = h ++ "/.config/jentool.ini") ∧
    (home ≠ "" → home.data.getLast? ≠ some '/' →
      CONF_PATH none home = home ++ "/.config/jentool.ini") ∧
    CONF_PATH (some "") home = CONF_PATH none home := by
  refine ⟨fun hne hsl => ?_, fun hne hsl => ?_, ?_⟩
  · unfold CONF_PATH
    simp only [Option.getD_some]
    rw [if_pos hne]
    exact pathJoin_config_ini h hne hsl
  · unfold CONF_PATH
    rw [if_neg (by simp)]
    exact pathJoin_config_ini home hne hsl
  · rfl

/-- Witness for C7 at concrete home directories. -/
theorem conf_path_from_environment_witness :
    CONF_PATH (some "/home/user") "/root" = "/home/user" ++ "/.config/jentool.ini" ∧
    CONF_PATH none "/root" = "/root" ++ "/.config/jentool.ini" ∧
    CONF_PATH (some "") "/root" = CONF_PATH none "/root" :=
  ⟨(conf_path_from_environment "/home/user" "/root").1 (by decide) (by decide),
   (conf_path_from_environment "/home/user" "/root").2.1 (by decide) (by decide),
   (conf_path_from_environment "/home/user" "/root").2.2⟩

/-- C8: a fetched job whose name does not match the pattern is untouched
by every subcommand: it is not printed, not disabled, not deleted, not
info-fetched and not copied. -/
theorem nonmatching_jobs_untouched
    (r : Regex) (names : List String) (dOnly : Bool) (dOf : String → Bool)
    (subst : String → String) (ex : String → Bool) (n : String)
    (h : reMatch r n = false) :
    Event.print n ∉ jobs_list_loop r names ∧
    Event.netDisableJob n ∉ jobs_disable_loop r names ∧
    Event.print ("Disable job " ++ n) ∉ jobs_disable_loop r names ∧
    Event.netDeleteJob n ∉ jobs_delete_loop r dOnly dOf names ∧
    Event.netGetJobInfo n ∉ jobs_delete_loop r dOnly dOf names ∧
    Event.print ("Deleted job " ++ n) ∉ jobs_delete_loop r dOnly dOf names ∧
    ∀ d, Event.netCopyJob n d ∉ jobs_copy_loop r subst ex names := by
  have hne : ¬ reMatch r n = true := by simp [h]
  refine ⟨fun hc => ?_, fun hc => ?_, fun hc => ?_, fun hc => ?_, fun hc => ?_,
    fun hc => ?_, fun d hc => ?_⟩
  · obtain ⟨m, _, hr, he⟩ := mem_jobs_list_loop hc
    injection he with hnm
    cases hnm
    exact hne hr
  · obtain ⟨m, _, hr, he⟩ := mem_jobs_disable_loop hc
    rcases he with he | he
    · exact absurd he (by simp)
    · injection he with hnm
      cases hnm
      exact hne hr
  · obtain ⟨m, _, hr, he⟩ := mem_jobs_disable_loop hc
    rcases he with he | he
    · injection he with hst
      cases append_left_cancel hst
      exact hne hr
    · exact absurd he (by simp)
  · obtain ⟨m, _, hr, he⟩ := mem_jobs_delete_loop hc
    rcases he with ⟨he, _⟩ | ⟨he, _⟩
    · exact absurd he (by simp)
    · rcases he with he | he
      · injection he with hnm
        cases hnm
        exact hne hr
      · exact absurd he (by simp)
  · obtain ⟨m, _, hr, he⟩ := mem_jobs_delete_loop hc
    rcases he with ⟨he, _⟩ | ⟨he, _⟩
    · injection he with hnm
      cases hnm
      exact hne hr
    · rcases he with he | he
      · exact absurd he (by simp)
      · exact absurd he (by simp)
  · obtain ⟨m, _, hr, he⟩ := mem_jobs_delete_loop hc
    rcases he with ⟨he, _⟩ | ⟨he, _⟩
    · exact absurd he (by simp)
    · rcases he with he | he
      · exact absurd he (by simp)
      · injection he with hst
        cases append_left_cancel hst
        exact hne hr
  · exact hne (netCopyJob_mem_jobs_copy_loop ex hc).1

/-- Witness for C8 at a concrete input. -/
theorem nonmatching_jobs_untouched_witness :
    reMatch (Regex.chr 'a') "b" = false ∧
      (Event.print "b" ∉ jobs_list_loop (Regex.chr 'a') ["b"] ∧
       Event.netDisableJob "b" ∉ jobs_disable_loop (Regex.chr 'a') ["b"] ∧
       Event.print ("Disable job " ++ "b") ∉ jobs_disable_loop (Regex.chr 'a') ["b"] ∧
       Event.netDeleteJob "b" ∉ jobs_delete_loop (Regex.chr 'a') true (fun _ => true) ["b"] ∧
       Event.netGetJobInfo "b" ∉ jobs_delete_loop (Regex.chr 'a') true (fun _ => true) ["b"] ∧
       Event.print ("Deleted job " ++ "b") ∉ jobs_delete_loop (Regex.chr 'a') true (fun _ => true) ["b"] ∧
       ∀ d, Event.netCopyJob "b" d ∉ jobs_copy_loop (Regex.chr 'a') bangSubst bangEx ["b"]) := by
  refine ⟨by decide, ?_⟩
  exact nonmatching_jobs_untouched (Regex.chr 'a') ["b"] true (fun _ => true)
    bangSubst bangEx "b" (by decide)

/-- C9: any copy issued by jobs-copy goes from a matched job to its
substituted name, which differs from the original and did not exist on
the server; a matched job whose changed target name already exists gets
the skip message printed and no copy issued. -/
theorem copy_skip_existing_target_contract
    (r : Regex) (subst : String → String) (ex : String → Bool) (names : List String) :
    (∀ src dst, Event.netCopyJob src dst ∈ jobs_copy_loop r subst ex names →
        dst = subst src ∧ src ≠ dst ∧ ex dst = false) ∧
    (∀ n, n ∈ names → reMatch r n = true → n ≠ subst n → ex (subst n) = true →
        Event.print (skipMsg (subst n)) ∈ jobs_copy_loop r subst ex names ∧
        ∀ d, Event.netCopyJob n d ∉ jobs_copy_loop r subst ex names) := by
  constructor
  · intro src dst hc
    obtain ⟨hr, hdst, hne, hex⟩ := netCopyJob_mem_jobs_copy_loop ex hc
    exact ⟨hdst, fun heq => hne (heq.trans hdst), hex⟩
  · intro n hmem hr hne hex
    refine ⟨skip_print_mem_jobs_copy_loop hmem hr hne ex hex, fun d hc => ?_⟩
    obtain ⟨_, hdst, _, hexd⟩ := netCopyJob_mem_jobs_copy_loop ex hc
    rw [hdst] at hexd
    simp [hex] at hexd

/-- Witness for C9 at a concrete input with an existing target. -/
theorem copy_skip_existing_target_contract_witness :
    ((Event.netCopyJob "a" "a!" ∈ jobs_copy_loop copyRegex bangSubst bangEx copyNames) ∧
     ("a!" = bangSubst "a" ∧ "a" ≠ "a!" ∧ bangEx "a!" = false)) ∧
    ("b" ∈ copyNames ∧ reMatch copyRegex "b" = true ∧ "b" ≠ bangSubst "b" ∧
      bangEx (bangSubst "b") = true) ∧
    (Event.print (skipMsg (bangSubst "b")) ∈ jobs_copy_loop copyRegex bangSubst bangEx copyNames ∧
      ∀ d, Event.netCopyJob "b" d ∉ jobs_copy_loop copyRegex bangSubst bangEx copyNames) := by
  refine ⟨⟨by decide, ?_⟩, ⟨by decide, by decide, by decide, by decide⟩, ?_⟩
  · exact (copy_skip_existing_target_contract copyRegex bangSubst bangEx copyNames).1
      "a" "a!" (by decide)
  · exact (copy_skip_existing_target_contract copyRegex bangSubst bangEx copyNames).2
      "b" (by decide) (by decide) (by decide) (by decide)

/-- C10: with `--disabled-only`, a matched job whose info has `disabled`
equal to False is skipped — not deleted, and no status line printed;
without the flag every matched job is deleted. -/
theorem delete_disabled_only_contract
    (r : Regex) (dOf : String → Bool) (names : List String) (n : String) :
    (reMatch r n = true → dOf n = false →
      Event.netDeleteJob n ∉ jobs_delete_loop r true dOf names ∧
      Event.print ("Deleted job " ++ n) ∉ jobs_delete_loop r true dOf names) ∧
    (n ∈ names → reMatch r n = true →
      Event.netDeleteJob n ∈ jobs_delete_loop r false dOf names) := by
  constructor
  · intro hr hd
    constructor
    · intro hc
      obtain ⟨m, _, hrm, hcase⟩ := mem_jobs_delete_loop hc
      rcases hcase with ⟨heq, _⟩ | ⟨heq, hok⟩
      · exact absurd heq (by simp)
      · rcases heq with heq | heq
        · injection heq with hnm
          cases hnm
          rcases hok with hok | hok
          · exact absurd hok (by simp)
          · simp [hd] at hok
        · exact absurd heq (by simp)
    · intro hc
      obtain ⟨m, _, hrm, hcase⟩ := mem_jobs_delete_loop hc
      rcases hcase with ⟨heq, _⟩ | ⟨heq, hok⟩
      · exact absurd heq (by simp)
      · rcases heq with heq | heq
        · exact absurd heq (by simp)
        · injection heq with hst
          cases append_left_cancel hst
          rcases hok with hok | hok
          · exact absurd hok (by simp)
          · simp [hd] at hok
  · intro hmem hr
    exact jobs_delete_loop_deletes hmem hr

/-- Witness for C10 at a concrete input. -/
theorem delete_disabled_only_contract_witness :
    (reMatch (Regex.chr 'a') "a" = true ∧ (fun _ : String => false) "a" = false ∧
      "a" ∈ (["a"] : List String)) ∧
    ((Event.netDeleteJob "a" ∉ jobs_delete_loop (Regex.chr 'a') true (fun _ => false) ["a"] ∧
      Event.print ("Deleted job " ++ "a") ∉
        jobs_delete_loop (Regex.chr 'a') true (fun _ => false) ["a"]) ∧
     Event.netDeleteJob "a" ∈ jobs_delete_loop (Regex.chr 'a') false (fun _ => false) ["a"]) := by
  refine ⟨⟨by decide, rfl, by decide⟩, ?_, ?_⟩
  · exact (delete_disabled_only_contract (Regex.chr 'a') (fun _ => false) ["a"] "a").1
      (by decide) rfl
  · exact (delete_disabled_only_contract (Regex.chr 'a') (fun _ => false) ["a"] "a").2
      (by decide) (by decide)

end Jentool
